import Mathlib

/-!
Shallow embedding of the CasADi integrator core
(`src/symbolic/fx/integrator_internal.cpp`) and of the generic options
registry (`src/casadi/options_functionality.cpp`), together with theorems
settling the frozen claims about the natural-language specification.

Conventions of the embedding:
* All vector/matrix ports are modelled by their row count (`size1`); vectors
  are dense columns, so `size() = size1()`.  The eight dimensions
  `nx, nz, nq, np, nrx, nrz, nrq, nrp` are natural numbers.
* The backward problem `g_` being attached is modelled by a `Bool` flag
  `hasG`; `IntegratorInternal::init` sets `nrx_ = nrz_ = nrq_ = nrp_ = 0`
  when `g_` is null, which we record as the predicate `DimsValid`.
* Symbolic MX block lists are modelled by lists of blocks carrying a height
  and a flag saying whether the block originates from an adjoint-derivative
  call (instrumentation used to settle the placement claims).
-/

namespace Casadi

/-- The eight integrator dimensions resolved during `init`:
`nx_ nz_ nq_ np_ nrx_ nrz_ nrq_ nrp_`. -/
structure Dims where
  nx : Nat
  nz : Nat
  nq : Nat
  np : Nat
  nrx : Nat
  nrz : Nat
  nrq : Nat
  nrp : Nat
deriving Repr, DecidableEq

/-- `init` invariant: when no backward DAE `g_` is attached, the four
backward dimensions are zero (integrator_internal.cpp line 97). -/
def DimsValid (d : Dims) (hasG : Bool) : Prop :=
  hasG = false → d.nrx = 0 ∧ d.nrz = 0 ∧ d.nrq = 0 ∧ d.nrp = 0

instance (d : Dims) (hasG : Bool) : Decidable (DimsValid d hasG) := by
  unfold DimsValid; infer_instance

/-- The eight cumulative-offset sequences returned by
`IntegratorInternal::getAugOffset`. -/
structure AugOffset where
  x : List Nat
  z : List Nat
  q : List Nat
  p : List Nat
  rx : List Nat
  rz : List Nat
  rq : List Nat
  rp : List Nat
deriving Repr, DecidableEq

/-- The block sizes one loop of `getAugOffset` appends to a sequence:
`cnt` repetitions of size `sz`, but nothing at all when `sz` is zero
(the `if(sz>0) seq.push_back(sz)` guard). -/
def pushBlocks (cnt : Nat) (sz : Nat) : List Nat :=
  if 0 < sz then List.replicate cnt sz else []

/-- Sizes appended to the `x` sequence by `getAugOffset`: the
`for(dir=-1;dir<nfwd;++dir)` loop pushes `nx` (when nonzero) and the
adjoint loop pushes `nrx` (when nonzero). -/
def xBlocks (d : Dims) (nfwd nadj : Nat) : List Nat :=
  pushBlocks (nfwd + 1) d.nx ++ pushBlocks nadj d.nrx

/-- Sizes appended to the `z` sequence: forward `nz`, adjoint `nrz`. -/
def zBlocks (d : Dims) (nfwd nadj : Nat) : List Nat :=
  pushBlocks (nfwd + 1) d.nz ++ pushBlocks nadj d.nrz

/-- Sizes appended to the `q` sequence: forward `nq`, adjoint `nrp`. -/
def qBlocks (d : Dims) (nfwd nadj : Nat) : List Nat :=
  pushBlocks (nfwd + 1) d.nq ++ pushBlocks nadj d.nrp

/-- Sizes appended to the `p` sequence: forward `np`, adjoint `nrq`. -/
def pBlocks (d : Dims) (nfwd nadj : Nat) : List Nat :=
  pushBlocks (nfwd + 1) d.np ++ pushBlocks nadj d.nrq

/-- Sizes appended to the `rx` sequence: forward `nrx`, adjoint `nx`. -/
def rxBlocks (d : Dims) (nfwd nadj : Nat) : List Nat :=
  pushBlocks (nfwd + 1) d.nrx ++ pushBlocks nadj d.nx

/-- Sizes appended to the `rz` sequence: forward `nrz`, adjoint `nz`. -/
def rzBlocks (d : Dims) (nfwd nadj : Nat) : List Nat :=
  pushBlocks (nfwd + 1) d.nrz ++ pushBlocks nadj d.nz

/-- Sizes appended to the `rq` sequence: forward `nrq`, adjoint `np`. -/
def rqBlocks (d : Dims) (nfwd nadj : Nat) : List Nat :=
  pushBlocks (nfwd + 1) d.nrq ++ pushBlocks nadj d.np

/-- Sizes appended to the `rp` sequence: forward `nrp`, adjoint `nq`. -/
def rpBlocks (d : Dims) (nfwd nadj : Nat) : List Nat :=
  pushBlocks (nfwd + 1) d.nrp ++ pushBlocks nadj d.nq

/-- The in-place prefix-sum pass of `getAugOffset`
(`for(i=1;...) ret.v[i] += ret.v[i-1]` applied to `0 :: sizes`). -/
def cumsum (l : List Nat) : List Nat :=
  List.scanl (· + ·) 0 l

/-- `IntegratorInternal::getAugOffset(nfwd,nadj)`
(integrator_internal.cpp lines 643-691). -/
def getAugOffset (d : Dims) (nfwd nadj : Nat) : AugOffset where
  x := cumsum (xBlocks d nfwd nadj)
  z := cumsum (zBlocks d nfwd nadj)
  q := cumsum (qBlocks d nfwd nadj)
  p := cumsum (pBlocks d nfwd nadj)
  rx := cumsum (rxBlocks d nfwd nadj)
  rz := cumsum (rzBlocks d nfwd nadj)
  rq := cumsum (rqBlocks d nfwd nadj)
  rp := cumsum (rpBlocks d nfwd nadj)

/-- `offset.v.back()` of a C++ vector; offset sequences are never empty. -/
def back (l : List Nat) : Nat :=
  l.getLastD 0

lemma back_cumsum (l : List Nat) : back (cumsum l) = l.sum := by
  suffices h : ∀ (a : Nat) (l : List Nat), (List.scanl (· + ·) a l).getLastD 0 = a + l.sum by
    simpa [back, cumsum] using h 0 l
  intro a l
  induction l generalizing a with
  | nil => simp [List.scanl_nil]
  | cons x xs ih =>
      rw [List.scanl_cons]
      simp only [List.singleton_append, List.sum_cons, List.getLastD_cons]
      have h2 := ih (a + x)
      cases hs : List.scanl (· + ·) (a + x) xs with
      | nil =>
          have hlen : (List.scanl (· + ·) (a + x) xs).length = xs.length + 1 :=
            List.length_scanl _ _
          rw [hs] at hlen
          simp at hlen
      | cons y ys =>
          rw [hs] at h2
          rw [List.getLastD_cons] at h2 ⊢
          omega

lemma sum_pushBlocks (cnt sz : Nat) : (pushBlocks cnt sz).sum = cnt * sz := by
  unfold pushBlocks
  split
  · simp [List.sum_replicate, smul_eq_mul]
  · rename_i h
    have hz : sz = 0 := by omega
    simp [hz]

lemma head_cumsum (l : List Nat) : (cumsum l).head? = some 0 := by
  cases l <;> simp [cumsum, List.scanl_nil, List.scanl_cons]

lemma chain_le_scanl (l : List Nat) (a : Nat) :
    List.Chain' (· ≤ ·) (List.scanl (· + ·) a l) := by
  induction l generalizing a with
  | nil => simp [List.scanl_nil]
  | cons x xs ih =>
      rw [List.scanl_cons]
      simp only [List.singleton_append]
      refine List.chain'_cons'.2 ⟨?_, ih (a + x)⟩
      intro y hy
      cases xs with
      | nil => simp [List.scanl_nil] at hy; omega
      | cons z zs =>
          rw [List.scanl_cons] at hy
          simp at hy
          omega

lemma chain_le_cumsum (l : List Nat) : List.Chain' (· ≤ ·) (cumsum l) :=
  chain_le_scanl l 0

lemma back_offset (c1 s1 c2 s2 : Nat) :
    back (cumsum (pushBlocks c1 s1 ++ pushBlocks c2 s2)) = c1 * s1 + c2 * s2 := by
  rw [back_cumsum, List.sum_append, sum_pushBlocks, sum_pushBlocks]

/-- C1: for every dimension set and every `nadj ≥ 1`, `getAugOffset` appends,
for each adjoint direction, sizes under the swap rule: a nonzero `nx` grows
the `rx` sequence (by one block of size `nx` per adjoint direction), `nz`
grows `rz`, `np` grows `rq`, and symmetrically `nrx` grows `x`, `nrz` grows
`z`, `nrp` grows `q`, `nrq` grows `p`.  In particular, for
`nx=1, nz=0, np=0` with a backward problem of `nrx=1`, `nfwd=0`, `nadj=1`,
the resulting `rx` offset sequence is `[0,1,2]`. -/
theorem getAugOffset_swap_rule (d : Dims) (nfwd nadj : Nat) (_h : 1 ≤ nadj) :
    (0 < d.nx → rxBlocks d nfwd nadj = rxBlocks d nfwd 0 ++ List.replicate nadj d.nx) ∧
    (0 < d.nz → rzBlocks d nfwd nadj = rzBlocks d nfwd 0 ++ List.replicate nadj d.nz) ∧
    (0 < d.np → rqBlocks d nfwd nadj = rqBlocks d nfwd 0 ++ List.replicate nadj d.np) ∧
    (0 < d.nrx → xBlocks d nfwd nadj = xBlocks d nfwd 0 ++ List.replicate nadj d.nrx) ∧
    (0 < d.nrz → zBlocks d nfwd nadj = zBlocks d nfwd 0 ++ List.replicate nadj d.nrz) ∧
    (0 < d.nrp → qBlocks d nfwd nadj = qBlocks d nfwd 0 ++ List.replicate nadj d.nrp) ∧
    (0 < d.nrq → pBlocks d nfwd nadj = pBlocks d nfwd 0 ++ List.replicate nadj d.nrq) ∧
    (getAugOffset ⟨1, 0, 0, 0, 1, 0, 0, 0⟩ 0 1).rx = [0, 1, 2] := by
  refine ⟨?_, ?_, ?_, ?_, ?_, ?_, ?_, by decide⟩ <;>
    · intro h'
      simp [rxBlocks, rzBlocks, rqBlocks, xBlocks, zBlocks, qBlocks, pBlocks,
        pushBlocks, h']

theorem getAugOffset_swap_rule_witness :
    1 ≤ 1 ∧
    ((0 < (1:Nat) → rxBlocks ⟨1, 0, 0, 0, 1, 0, 0, 0⟩ 0 1 =
        rxBlocks ⟨1, 0, 0, 0, 1, 0, 0, 0⟩ 0 0 ++ List.replicate 1 1) ∧
     (0 < (0:Nat) → rzBlocks ⟨1, 0, 0, 0, 1, 0, 0, 0⟩ 0 1 =
        rzBlocks ⟨1, 0, 0, 0, 1, 0, 0, 0⟩ 0 0 ++ List.replicate 1 0) ∧
     (0 < (0:Nat) → rqBlocks ⟨1, 0, 0, 0, 1, 0, 0, 0⟩ 0 1 =
        rqBlocks ⟨1, 0, 0, 0, 1, 0, 0, 0⟩ 0 0 ++ List.replicate 1 0) ∧
     (0 < (1:Nat) → xBlocks ⟨1, 0, 0, 0, 1, 0, 0, 0⟩ 0 1 =
        xBlocks ⟨1, 0, 0, 0, 1, 0, 0, 0⟩ 0 0 ++ List.replicate 1 1) ∧
     (0 < (0:Nat) → zBlocks ⟨1, 0, 0, 0, 1, 0, 0, 0⟩ 0 1 =
        zBlocks ⟨1, 0, 0, 0, 1, 0, 0, 0⟩ 0 0 ++ List.replicate 1 0) ∧
     (0 < (0:Nat) → qBlocks ⟨1, 0, 0, 0, 1, 0, 0, 0⟩ 0 1 =
        qBlocks ⟨1, 0, 0, 0, 1, 0, 0, 0⟩ 0 0 ++ List.replicate 1 0) ∧
     (0 < (0:Nat) → pBlocks ⟨1, 0, 0, 0, 1, 0, 0, 0⟩ 0 1 =
        pBlocks ⟨1, 0, 0, 0, 1, 0, 0, 0⟩ 0 0 ++ List.replicate 1 0) ∧
     (getAugOffset ⟨1, 0, 0, 0, 1, 0, 0, 0⟩ 0 1).rx = [0, 1, 2]) :=
  ⟨by decide, getAugOffset_swap_rule ⟨1, 0, 0, 0, 1, 0, 0, 0⟩ 0 1 (by decide)⟩

/-- C7: for every dimension set and every `nfwd, nadj`, each of the eight
sequences returned by `getAugOffset` starts at 0, is non-decreasing, and its
final element equals the sum of all contributing block sizes for that vector
across the nondifferentiated direction, the `nfwd` forward directions and
the `nadj` adjoint directions. -/
theorem getAugOffset_cumulative (d : Dims) (nfwd nadj : Nat) :
    ((getAugOffset d nfwd nadj).x.head? = some 0 ∧
      List.Chain' (· ≤ ·) (getAugOffset d nfwd nadj).x ∧
      back (getAugOffset d nfwd nadj).x = (nfwd + 1) * d.nx + nadj * d.nrx) ∧
    ((getAugOffset d nfwd nadj).z.head? = some 0 ∧
      List.Chain' (· ≤ ·) (getAugOffset d nfwd nadj).z ∧
      back (getAugOffset d nfwd nadj).z = (nfwd + 1) * d.nz + nadj * d.nrz) ∧
    ((getAugOffset d nfwd nadj).q.head? = some 0 ∧
      List.Chain' (· ≤ ·) (getAugOffset d nfwd nadj).q ∧
      back (getAugOffset d nfwd nadj).q = (nfwd + 1) * d.nq + nadj * d.nrp) ∧
    ((getAugOffset d nfwd nadj).p.head? = some 0 ∧
      List.Chain' (· ≤ ·) (getAugOffset d nfwd nadj).p ∧
      back (getAugOffset d nfwd nadj).p = (nfwd + 1) * d.np + nadj * d.nrq) ∧
    ((getAugOffset d nfwd nadj).rx.head? = some 0 ∧
      List.Chain' (· ≤ ·) (getAugOffset d nfwd nadj).rx ∧
      back (getAugOffset d nfwd nadj).rx = (nfwd + 1) * d.nrx + nadj * d.nx) ∧
    ((getAugOffset d nfwd nadj).rz.head? = some 0 ∧
      List.Chain' (· ≤ ·) (getAugOffset d nfwd nadj).rz ∧
      back (getAugOffset d nfwd nadj).rz = (nfwd + 1) * d.nrz + nadj * d.nz) ∧
    ((getAugOffset d nfwd nadj).rq.head? = some 0 ∧
      List.Chain' (· ≤ ·) (getAugOffset d nfwd nadj).rq ∧
      back (getAugOffset d nfwd nadj).rq = (nfwd + 1) * d.nrq + nadj * d.np) ∧
    ((getAugOffset d nfwd nadj).rp.head? = some 0 ∧
      List.Chain' (· ≤ ·) (getAugOffset d nfwd nadj).rp ∧
      back (getAugOffset d nfwd nadj).rp = (nfwd + 1) * d.nrp + nadj * d.nq) := by
  refine ⟨⟨?_, ?_, ?_⟩, ⟨?_, ?_, ?_⟩, ⟨?_, ?_, ?_⟩, ⟨?_, ?_, ?_⟩,
    ⟨?_, ?_, ?_⟩, ⟨?_, ?_, ?_⟩, ⟨?_, ?_, ?_⟩, ⟨?_, ?_, ?_⟩⟩ <;>
    first
      | exact head_cumsum _
      | exact chain_le_cumsum _
      | exact back_offset _ _ _ _

/-! ## Options registry (`src/casadi/options_functionality.cpp`) -/

/-- Lookup in a `std::map` modelled as an association list. -/
def lookupAL {β : Type} (m : List (String × β)) (k : String) : Option β :=
  (m.find? (fun kv => kv.1 = k)).map (fun kv => kv.2)

/-- `options[name] = op`: replace an existing binding or append a new one. -/
def insertAL {β : Type} (m : List (String × β)) (k : String) (v : β) :
    List (String × β) :=
  match m with
  | [] => [(k, v)]
  | kv :: rest => if kv.1 = k then (k, v) :: rest else kv :: insertAL rest k v

/-- State of an `OptionsFunctionalityNode`: the `allowed_options` map
(name to `opt_type` code) and the `options` map (name to stored value). -/
structure OptionsNode (β : Type) where
  allowed : List (String × Nat)
  options : List (String × β)

/-- `OptionsFunctionalityNode::setOption` (options_functionality.cpp lines
34-45): throw `CasadiException` when the name is not an allowed option
(the node is left untouched because the throw happens before the write),
otherwise store the value.  Returns the resulting node and the raised
message, if any. -/
def setOption {β : Type} (n : OptionsNode β) (name : String) (v : β) :
    OptionsNode β × Option String :=
  match lookupAL n.allowed name with
  | none => (n, some ("Unknown option: " ++ name))
  | some _ => ({ n with options := insertAL n.options name v }, none)

/-- `OptionsFunctionalityNode::getOption` (options_functionality.cpp lines
50-64): throw when the option has never been stored, otherwise return it. -/
def getOption {β : Type} (n : OptionsNode β) (name : String) :
    Except String β :=
  match lookupAL n.options name with
  | none => .error ("Option: " ++ name ++ " has not been set.")
  | some v => .ok v

lemma lookupAL_insertAL_self {β : Type} (m : List (String × β)) (k : String)
    (v : β) : lookupAL (insertAL m k v) k = some v := by
  induction m with
  | nil => simp [insertAL, lookupAL, List.find?]
  | cons kv rest ih =>
      by_cases h : kv.1 = k
      · simp [insertAL, h, lookupAL, List.find?]
      · simp only [insertAL, if_neg h]
        simpa [lookupAL, List.find?, h] using ih

/-- C10: `setOption` raises exactly when the name is not among the allowed
options, and on that error the stored option map is unchanged; when the name
is allowed the value is stored and a subsequent `getOption` returns it, while
`getOption` on an allowed option that has never been set (neither by a
default nor by `setOption`) raises an error. -/
theorem setOption_getOption_contract {β : Type} (n : OptionsNode β)
    (name : String) (v : β) :
    ((setOption n name v).2.isSome ↔ lookupAL n.allowed name = none) ∧
    (lookupAL n.allowed name = none → (setOption n name v).1 = n) ∧
    (lookupAL n.allowed name ≠ none →
      (setOption n name v).2 = none ∧
      getOption (setOption n name v).1 name = .ok v) ∧
    (lookupAL n.allowed name ≠ none → lookupAL n.options name = none →
      getOption n name = .error ("Option: " ++ name ++ " has not been set.")) := by
  refine ⟨?_, ?_, ?_, ?_⟩
  · unfold setOption
    cases h : lookupAL n.allowed name <;> simp [h]
  · intro h
    unfold setOption
    rw [h]
  · intro h
    unfold setOption
    cases hh : lookupAL n.allowed name with
    | none => exact absurd hh h
    | some t =>
        refine ⟨rfl, ?_⟩
        unfold getOption
        simp [lookupAL_insertAL_self]
  · intro _ h2
    unfold getOption
    rw [h2]

theorem setOption_getOption_contract_witness :
    lookupAL (β := Nat) [("t0", 5)] "t0" ≠ none ∧
    (setOption (⟨[("t0", 2)], []⟩ : OptionsNode Nat) "t0" 5).2 = none ∧
    getOption (setOption (⟨[("t0", 2)], []⟩ : OptionsNode Nat) "t0" 5).1 "t0" =
      .ok 5 ∧
    getOption (⟨[("t0", 2)], []⟩ : OptionsNode Nat) "t0" =
      .error ("Option: " ++ "t0" ++ " has not been set.") := by
  have h := setOption_getOption_contract (⟨[("t0", 2)], []⟩ : OptionsNode Nat) "t0" 5
  exact ⟨by decide, (h.2.2.1 (by decide)).1, (h.2.2.1 (by decide)).2,
    h.2.2.2 (by decide) (by decide)⟩

/-! ## Structural propagation, reverse mode
(`IntegratorInternal::spEvaluate`, `fwd=false` branch) -/

/-- The integrator's input and output bit-vector buffers
(one machine word per nonzero, modelled as `Nat` with bitwise OR). -/
structure SpState where
  x0 : List Nat
  p : List Nat
  z0 : List Nat
  rx0 : List Nat
  rp : List Nat
  rz0 : List Nat
  xf : List Nat
  qf : List Nat
  zf : List Nat
  rxf : List Nat
  rqf : List Nat
  rzf : List Nat
deriving Repr, DecidableEq

/-- Bitwise OR of all words of a buffer (the `all_depend |= v[i]` loops). -/
def orAll (l : List Nat) : Nat :=
  l.foldl Nat.lor 0

/-- `IntegratorInternal::spEvaluate(false)` (integrator_internal.cpp
lines 526-530 and 598-639): zero the `z0`/`rz0` seeds, accumulate
`all_depend` over `rxf` and `rqf`, assign it to every word of `rx0` and
`rp`, then accumulate `xf` and `qf` on top and assign the result to every
word of `x0` and `p`.  Output buffers are only read. -/
def spEvaluateRev (s : SpState) : SpState :=
  let allDependB := Nat.lor (orAll s.rxf) (orAll s.rqf)
  let allDepend := Nat.lor allDependB (Nat.lor (orAll s.xf) (orAll s.qf))
  { s with
    z0 := s.z0.map (fun _ => 0)
    rz0 := s.rz0.map (fun _ => 0)
    rx0 := s.rx0.map (fun _ => allDependB)
    rp := s.rp.map (fun _ => allDependB)
    x0 := s.x0.map (fun _ => allDepend)
    p := s.p.map (fun _ => allDepend) }

/-- C8 counterexample: the claim that during reverse-mode structural
propagation no bit is ever cleared is false: starting from a state whose
only set bit is in the `z0` input buffer, `spEvaluate(false)` clears it
(`z0().setZeroBV()`), and a set bit in `rx0` is likewise overwritten with 0
because input buffers are assigned, not OR-ed. -/
theorem spEvaluateRev_clears_bits :
    (spEvaluateRev ⟨[], [], [1], [2], [], [], [], [], [], [], [], []⟩).z0 = [0] ∧
    (spEvaluateRev ⟨[], [], [1], [2], [], [], [], [], [], [], [], []⟩).rx0 = [0] := by
  decide

/-- C8 amended: during reverse-mode structural propagation the output
buffers are never modified, and dependence is combined only by bitwise OR
when it is *read*: `rx0` and `rp` are overwritten with the OR of all
backward-output bits (`rxf`, `rqf`), `x0` and `p` with the OR of all four
output buffers, and the `z0`/`rz0` initial-guess seeds are cleared.  Input
bits set before the call are thus not preserved in general. -/
theorem spEvaluateRev_characterization (s : SpState) :
    (spEvaluateRev s).xf = s.xf ∧ (spEvaluateRev s).qf = s.qf ∧
    (spEvaluateRev s).zf = s.zf ∧ (spEvaluateRev s).rxf = s.rxf ∧
    (spEvaluateRev s).rqf = s.rqf ∧ (spEvaluateRev s).rzf = s.rzf ∧
    (spEvaluateRev s).rx0 =
      s.rx0.map (fun _ => Nat.lor (orAll s.rxf) (orAll s.rqf)) ∧
    (spEvaluateRev s).rp =
      s.rp.map (fun _ => Nat.lor (orAll s.rxf) (orAll s.rqf)) ∧
    (spEvaluateRev s).x0 =
      s.x0.map (fun _ => Nat.lor (Nat.lor (orAll s.rxf) (orAll s.rqf))
        (Nat.lor (orAll s.xf) (orAll s.qf))) ∧
    (spEvaluateRev s).p =
      s.p.map (fun _ => Nat.lor (Nat.lor (orAll s.rxf) (orAll s.rqf))
        (Nat.lor (orAll s.xf) (orAll s.qf))) ∧
    (spEvaluateRev s).z0 = s.z0.map (fun _ => 0) ∧
    (spEvaluateRev s).rz0 = s.rz0.map (fun _ => 0) := by
  refine ⟨rfl, rfl, rfl, rfl, rfl, rfl, rfl, rfl, rfl, rfl, rfl, rfl⟩

/-! ## Dimension cross-checks of `IntegratorInternal::init`
(integrator_internal.cpp lines 133-144) -/

/-- A CRS sparsity pattern: row and column count plus the list of
structurally nonzero positions.  Two patterns with equal shapes can still
differ. -/
structure Sparsity where
  nrow : Nat
  ncol : Nat
  nz : List (Nat × Nat)
deriving Repr, DecidableEq

/-- `Matrix::shape()`: the `(size1, size2)` pair of a sparsity pattern. -/
def spShape (s : Sparsity) : Nat × Nat :=
  (s.nrow, s.ncol)

/-- The forward DAE ports that the `init` cross-checks read: the `x0`/`z0`/
`p` input buffers (which carry the sparsities of `f_`'s `DAE_X`/`DAE_Z`/
`DAE_P` inputs) and `f_`'s `DAE_ODE`/`DAE_ALG` outputs. -/
structure FwdCheckPorts where
  x0 : Sparsity
  z0 : Sparsity
  p : Sparsity
  ode : Sparsity
  alg : Sparsity
deriving Repr, DecidableEq

/-- The backward DAE ports that the `init` cross-checks read: `g_`'s
`RDAE_X`/`RDAE_Z`/`RDAE_P`/`RDAE_RX`/`RDAE_RZ` inputs and its
`RDAE_ODE`/`RDAE_ALG` outputs (the `RDAE_RX`/`RDAE_RZ` input sparsities are
the `rx0`/`rz0` buffers). -/
structure BwdCheckPorts where
  x : Sparsity
  z : Sparsity
  p : Sparsity
  rx : Sparsity
  rz : Sparsity
  ode : Sparsity
  alg : Sparsity
deriving Repr, DecidableEq

/-- How an `init` cross-check fails: `casadi_assert_message` carries the two
conflicting shapes in its message, a bare `casadi_assert` carries nothing. -/
inductive InitCheckError where
  | dimensionMismatch (expected got : Nat × Nat)
  | plainAssert
deriving Repr, DecidableEq

/-- Whether a failure reports both conflicting shapes. -/
def carriesBothShapes : InitCheckError → Prop
  | .dimensionMismatch _ _ => True
  | .plainAssert => False

/-- The consistency-check block of `IntegratorInternal::init`
(integrator_internal.cpp lines 133-144), in source order: two
`casadi_assert_message` shape checks for `DAE_ODE`/`DAE_ALG` (each followed
by a bare `casadi_assert` on sparsity equality), then — when a backward
problem is attached — five bare `casadi_assert` sparsity checks. -/
def bwdConsistencyChecks (f : FwdCheckPorts) (gp : BwdCheckPorts) :
    Except InitCheckError Unit :=
  if gp.p ≠ f.p then .error .plainAssert
  else if gp.x ≠ f.x0 then .error .plainAssert
  else if gp.z ≠ f.z0 then .error .plainAssert
  else if gp.ode ≠ gp.rx then .error .plainAssert
  else if gp.alg ≠ gp.rz then .error .plainAssert
  else .ok ()

def initConsistencyChecks (f : FwdCheckPorts) (g : Option BwdCheckPorts) :
    Except InitCheckError Unit :=
  if spShape f.ode ≠ spShape f.x0 then
    .error (.dimensionMismatch (spShape f.x0) (spShape f.ode))
  else if f.ode ≠ f.x0 then .error .plainAssert
  else if spShape f.alg ≠ spShape f.z0 then
    .error (.dimensionMismatch (spShape f.z0) (spShape f.alg))
  else if f.alg ≠ f.z0 then .error .plainAssert
  else
    match g with
    | none => .ok ()
    | some gp => bwdConsistencyChecks f gp

/-- C9 counterexample: a backward problem whose `RDAE_X` input sparsity
differs from the forward `x0` port makes `init` fail through a bare
`casadi_assert`, an error that carries no shapes at all — refuting the claim
that every dimension cross-check failure carries both conflicting shapes. -/
theorem initConsistencyChecks_no_shapes :
    initConsistencyChecks
      ⟨⟨1, 1, [(0, 0)]⟩, ⟨0, 1, []⟩, ⟨1, 1, [(0, 0)]⟩, ⟨1, 1, [(0, 0)]⟩,
        ⟨0, 1, []⟩⟩
      (some ⟨⟨1, 1, []⟩, ⟨0, 1, []⟩, ⟨1, 1, [(0, 0)]⟩, ⟨1, 1, [(0, 0)]⟩,
        ⟨0, 1, []⟩, ⟨1, 1, [(0, 0)]⟩, ⟨0, 1, []⟩⟩) =
      .error .plainAssert ∧
    ¬carriesBothShapes .plainAssert := by
  exact ⟨rfl, fun h => h⟩

/-- C9 amended: during `init`, only the forward `DAE_ODE`/`DAE_ALG` *shape*
cross-checks fail with an error carrying both conflicting shapes; the
forward sparsity-equality checks and all backward-problem cross-checks
(state, algebraic and parameter input sparsities against the forward ports,
and backward output sparsities against `rx0`/`rz0`) fail through a bare
assertion that carries no shapes. -/
theorem initConsistencyChecks_shape_reporting (f : FwdCheckPorts)
    (g : Option BwdCheckPorts) :
    (spShape f.ode ≠ spShape f.x0 →
      initConsistencyChecks f g =
        .error (.dimensionMismatch (spShape f.x0) (spShape f.ode))) ∧
    (spShape f.ode = spShape f.x0 → f.ode ≠ f.x0 →
      initConsistencyChecks f g = .error .plainAssert ∧
      ¬carriesBothShapes InitCheckError.plainAssert) ∧
    (spShape f.ode = spShape f.x0 → f.ode = f.x0 →
      spShape f.alg ≠ spShape f.z0 →
      initConsistencyChecks f g =
        .error (.dimensionMismatch (spShape f.z0) (spShape f.alg))) ∧
    (f.ode = f.x0 → spShape f.alg = spShape f.z0 → f.alg ≠ f.z0 →
      initConsistencyChecks f g = .error .plainAssert ∧
      ¬carriesBothShapes InitCheckError.plainAssert) ∧
    (∀ gp, g = some gp → f.ode = f.x0 → f.alg = f.z0 →
      (gp.p ≠ f.p ∨ gp.x ≠ f.x0 ∨ gp.z ≠ f.z0 ∨ gp.ode ≠ gp.rx ∨
        gp.alg ≠ gp.rz) →
      initConsistencyChecks f g = .error .plainAssert ∧
      ¬carriesBothShapes InitCheckError.plainAssert) := by
  refine ⟨?_, ?_, ?_, ?_, ?_⟩
  · intro h
    unfold initConsistencyChecks
    rw [if_pos h]
  · intro h1 h2
    refine ⟨?_, fun h => h⟩
    unfold initConsistencyChecks
    rw [if_neg (by simp [h1]), if_pos h2]
  · intro h1 h2 h3
    unfold initConsistencyChecks
    rw [if_neg (by simp [h1]), if_neg (by simp [h2]), if_pos h3]
  · intro hode hsh halg
    refine ⟨?_, fun h => h⟩
    have hsh1 : spShape f.ode = spShape f.x0 := by rw [hode]
    unfold initConsistencyChecks
    rw [if_neg (by simp [hsh1]), if_neg (by simp [hode]),
      if_neg (by simp [hsh]), if_pos halg]
  · rintro gp rfl hode halg hbad
    refine ⟨?_, fun h => h⟩
    have hsh1 : spShape f.ode = spShape f.x0 := by rw [hode]
    have hsh2 : spShape f.alg = spShape f.z0 := by rw [halg]
    have hred : initConsistencyChecks f (some gp) = bwdConsistencyChecks f gp := by
      unfold initConsistencyChecks
      rw [if_neg (by simp [hsh1]), if_neg (by simp [hode]),
        if_neg (by simp [hsh2]), if_neg (by simp [halg])]
    rw [hred]
    unfold bwdConsistencyChecks
    rcases hbad with h | h | h | h | h
    · rw [if_pos h]
    · by_cases hp : gp.p ≠ f.p
      · rw [if_pos hp]
      · rw [if_neg hp, if_pos h]
    · by_cases hp : gp.p ≠ f.p
      · rw [if_pos hp]
      · by_cases hx : gp.x ≠ f.x0
        · rw [if_neg hp, if_pos hx]
        · rw [if_neg hp, if_neg hx, if_pos h]
    · by_cases hp : gp.p ≠ f.p
      · rw [if_pos hp]
      · by_cases hx : gp.x ≠ f.x0
        · rw [if_neg hp, if_pos hx]
        · by_cases hz : gp.z ≠ f.z0
          · rw [if_neg hp, if_neg hx, if_pos hz]
          · rw [if_neg hp, if_neg hx, if_neg hz, if_pos h]
    · by_cases hp : gp.p ≠ f.p
      · rw [if_pos hp]
      · by_cases hx : gp.x ≠ f.x0
        · rw [if_neg hp, if_pos hx]
        · by_cases hz : gp.z ≠ f.z0
          · rw [if_neg hp, if_neg hx, if_pos hz]
          · by_cases ho : gp.ode ≠ gp.rx
            · rw [if_neg hp, if_neg hx, if_neg hz, if_pos ho]
            · rw [if_neg hp, if_neg hx, if_neg hz, if_neg ho, if_pos h]

theorem initConsistencyChecks_shape_reporting_witness :
    (initConsistencyChecks
      ⟨⟨1, 1, [(0, 0)]⟩, ⟨0, 1, []⟩, ⟨1, 1, [(0, 0)]⟩, ⟨1, 1, [(0, 0)]⟩,
        ⟨0, 1, []⟩⟩
      (some ⟨⟨1, 1, []⟩, ⟨0, 1, []⟩, ⟨1, 1, [(0, 0)]⟩, ⟨1, 1, [(0, 0)]⟩,
        ⟨0, 1, []⟩, ⟨1, 1, [(0, 0)]⟩, ⟨0, 1, []⟩⟩) =
      .error .plainAssert ∧
    ¬carriesBothShapes InitCheckError.plainAssert) ∧
    (initConsistencyChecks
      ⟨⟨1, 1, [(0, 0)]⟩, ⟨0, 1, []⟩, ⟨1, 1, [(0, 0)]⟩, ⟨1, 1, []⟩,
        ⟨0, 1, []⟩⟩ none =
      .error .plainAssert ∧
    ¬carriesBothShapes InitCheckError.plainAssert) :=
  ⟨(initConsistencyChecks_shape_reporting
      ⟨⟨1, 1, [(0, 0)]⟩, ⟨0, 1, []⟩, ⟨1, 1, [(0, 0)]⟩, ⟨1, 1, [(0, 0)]⟩,
        ⟨0, 1, []⟩⟩
      (some ⟨⟨1, 1, []⟩, ⟨0, 1, []⟩, ⟨1, 1, [(0, 0)]⟩, ⟨1, 1, [(0, 0)]⟩,
        ⟨0, 1, []⟩, ⟨1, 1, [(0, 0)]⟩, ⟨0, 1, []⟩⟩)).2.2.2.2
    _ rfl (by decide) (by decide) (by decide),
   (initConsistencyChecks_shape_reporting
      ⟨⟨1, 1, [(0, 0)]⟩, ⟨0, 1, []⟩, ⟨1, 1, [(0, 0)]⟩, ⟨1, 1, []⟩,
        ⟨0, 1, []⟩⟩ none).2.1
    (by decide) (by decide)⟩

/-! ## Augmented problem builder (`IntegratorInternal::getAugmented`,
integrator_internal.cpp lines 176-454) -/

/-- A symbolic output block collected into one of the result lists
`f_ode, f_alg, f_quad, g_ode, g_alg, g_quad`: its row count and whether it
originates from an adjoint-derivative call (`f_.derivative(0,nadj)` or
`g_.derivative(0,nadj)`). -/
structure Blk where
  rows : Nat
  adj : Bool
deriving Repr, DecidableEq

/-- The six result lists of `getAugmented`. -/
structure AugLists where
  f_ode : List Blk
  f_alg : List Blk
  f_quad : List Blk
  g_ode : List Blk
  g_alg : List Blk
  g_quad : List Blk
deriving Repr, DecidableEq

/-- The result lists built by `getAugmented`:
* the forward loop over `f_.derivative(nfwd,0)` pushes `nfwd+1` ODE (`nx`
  rows), algebraic (`nz`) and quadrature (`nq`) blocks into
  `f_ode`/`f_alg`/`f_quad` when the dimension is nonzero (lines 236-242);
* when `g_` is attached, the same loop over `g_.derivative(nfwd,0)` pushes
  `nfwd+1` blocks of `nrx`/`nrz`/`nrq` rows into `g_ode`/`g_alg`/`g_quad`
  (lines 280-286);
* when `nadj>0`, the adjoint derivative of `f_` pushes `nadj` blocks of
  `nx`/`nz`/`np` rows into `g_ode`/`g_alg`/`g_quad` (lines 320-326); the
  first adjoint call of `g_` adds (`+=`) into those same entries without
  creating blocks (lines 354-360); the second, zero-seeded adjoint call of
  `g_` pushes `nadj` blocks of `nrx`/`nrz`/`nrp` rows into
  `f_ode`/`f_alg`/`f_quad` (lines 378-384). -/
def augLists (d : Dims) (hasG : Bool) (nfwd nadj : Nat) : AugLists where
  f_ode := (if 0 < d.nx then List.replicate (nfwd + 1) (⟨d.nx, false⟩ : Blk) else []) ++
    (if hasG = true ∧ 0 < d.nrx then List.replicate nadj (⟨d.nrx, true⟩ : Blk) else [])
  f_alg := (if 0 < d.nz then List.replicate (nfwd + 1) (⟨d.nz, false⟩ : Blk) else []) ++
    (if hasG = true ∧ 0 < d.nrz then List.replicate nadj (⟨d.nrz, true⟩ : Blk) else [])
  f_quad := (if 0 < d.nq then List.replicate (nfwd + 1) (⟨d.nq, false⟩ : Blk) else []) ++
    (if hasG = true ∧ 0 < d.nrp then List.replicate nadj (⟨d.nrp, true⟩ : Blk) else [])
  g_ode := (if hasG = true ∧ 0 < d.nrx then List.replicate (nfwd + 1) (⟨d.nrx, false⟩ : Blk) else []) ++
    (if 0 < d.nx then List.replicate nadj (⟨d.nx, true⟩ : Blk) else [])
  g_alg := (if hasG = true ∧ 0 < d.nrz then List.replicate (nfwd + 1) (⟨d.nrz, false⟩ : Blk) else []) ++
    (if 0 < d.nz then List.replicate nadj (⟨d.nz, true⟩ : Blk) else [])
  g_quad := (if hasG = true ∧ 0 < d.nrq then List.replicate (nfwd + 1) (⟨d.nrq, false⟩ : Blk) else []) ++
    (if 0 < d.np then List.replicate nadj (⟨d.np, true⟩ : Blk) else [])

/-- Total row count of a result list (the height of `densify(vertcat(l))`;
a list left empty gives a null output of height 0). -/
def heightSum (l : List Blk) : Nat :=
  (l.map (fun b => b.rows)).sum

/-- Port widths (row counts) of a forward DAE callback. -/
structure DAEProbW where
  inT : Nat
  inX : Nat
  inZ : Nat
  inP : Nat
  outOde : Nat
  outAlg : Nat
  outQuad : Nat
deriving Repr, DecidableEq

/-- Port widths (row counts) of a backward DAE callback. -/
structure RDAEProbW where
  inT : Nat
  inX : Nat
  inZ : Nat
  inP : Nat
  inRX : Nat
  inRZ : Nat
  inRP : Nat
  outOde : Nat
  outAlg : Nat
  outQuad : Nat
deriving Repr, DecidableEq

/-- The augmented pair returned by `getAugmented`: whether the forward slot
holds the original `f_` object itself (the `ret.first = f_` branch), the
forward problem's port widths, and the backward problem's port widths when
one is constructed (`ret.second` stays null when `g_ode` is empty). -/
structure AugPair where
  fwdReused : Bool
  fwd : DAEProbW
  bwd : Option RDAEProbW
deriving Repr, DecidableEq

/-- Port widths of the original forward callback `f_` after `init`: the
`DAE_ODE`/`DAE_ALG` outputs match the `DAE_X`/`DAE_Z` inputs (checked at
lines 134-137). -/
def fProbW (d : Dims) : DAEProbW :=
  ⟨1, d.nx, d.nz, d.np, d.nx, d.nz, d.nq⟩

/-- `IntegratorInternal::getAugmented(nfwd,nadj)`: the forward slot reuses
`f_` when `g_.isNull() && nfwd==0` (line 398), otherwise it is an
`MXFunction` whose inputs are the fresh symbols `aug_t, aug_x, aug_z, aug_p`
of heights `1, offset.x.back(), offset.z.back(), offset.p.back()` and whose
outputs stack the collected result lists; the backward slot is built from
`aug_x..aug_rp` and the `g_*` lists only when `g_ode` is nonempty
(line 421). -/
def getAugmented (d : Dims) (hasG : Bool) (nfwd nadj : Nat) : AugPair :=
  let offset := getAugOffset d nfwd nadj
  let L := augLists d hasG nfwd nadj
  let fwd : DAEProbW :=
    if hasG = false ∧ nfwd = 0 then fProbW d
    else
      ⟨1, back offset.x, back offset.z, back offset.p,
        heightSum L.f_ode, heightSum L.f_alg, heightSum L.f_quad⟩
  let bwd : Option RDAEProbW :=
    if L.g_ode.isEmpty then none
    else
      some ⟨1, back offset.x, back offset.z, back offset.p,
        back offset.rx, back offset.rz, back offset.rp,
        heightSum L.g_ode, heightSum L.g_alg, heightSum L.g_quad⟩
  ⟨!hasG && nfwd == 0, fwd, bwd⟩

lemma heightSum_append (l1 l2 : List Blk) :
    heightSum (l1 ++ l2) = heightSum l1 + heightSum l2 := by
  simp [heightSum]

lemma heightSum_ite_replicate (c : Prop) [Decidable c] (n s : Nat) (b : Bool) :
    heightSum (if c then List.replicate n (⟨s, b⟩ : Blk) else []) =
      if c then n * s else 0 := by
  split <;> simp [heightSum, List.map_replicate, List.sum_replicate, smul_eq_mul]

lemma ite_mul_pos (c s : Nat) : (if 0 < s then c * s else 0) = c * s := by
  by_cases h : 0 < s
  · rw [if_pos h]
  · rw [if_neg h]
    have hs : s = 0 := by omega
    rw [hs, Nat.mul_zero]

lemma heightSum_fwdGuarded (hasG : Bool) (c1 s1 c2 s2 : Nat) (b1 b2 : Bool)
    (hz : hasG = false → s2 = 0) :
    heightSum ((if 0 < s1 then List.replicate c1 (⟨s1, b1⟩ : Blk) else []) ++
      (if hasG = true ∧ 0 < s2 then List.replicate c2 (⟨s2, b2⟩ : Blk) else [])) =
      c1 * s1 + c2 * s2 := by
  rw [heightSum_append, heightSum_ite_replicate, heightSum_ite_replicate,
    ite_mul_pos]
  cases hasG with
  | false =>
      have h2 : s2 = 0 := hz rfl
      subst h2
      simp
  | true =>
      have he : (if true = true ∧ 0 < s2 then c2 * s2 else 0) =
          if 0 < s2 then c2 * s2 else 0 := by simp
      rw [he, ite_mul_pos]

lemma heightSum_bwdGuarded (hasG : Bool) (c1 s1 c2 s2 : Nat) (b1 b2 : Bool)
    (hz : hasG = false → s1 = 0) :
    heightSum ((if hasG = true ∧ 0 < s1 then List.replicate c1 (⟨s1, b1⟩ : Blk) else []) ++
      (if 0 < s2 then List.replicate c2 (⟨s2, b2⟩ : Blk) else [])) =
      c1 * s1 + c2 * s2 := by
  rw [heightSum_append, heightSum_ite_replicate, heightSum_ite_replicate,
    ite_mul_pos]
  cases hasG with
  | false =>
      have h1 : s1 = 0 := hz rfl
      subst h1
      simp
  | true =>
      have he : (if true = true ∧ 0 < s1 then c1 * s1 else 0) =
          if 0 < s1 then c1 * s1 else 0 := by simp
      rw [he, ite_mul_pos]

lemma back_x (d : Dims) (nfwd nadj : Nat) :
    back (getAugOffset d nfwd nadj).x = (nfwd + 1) * d.nx + nadj * d.nrx :=
  back_offset _ _ _ _

lemma back_rx (d : Dims) (nfwd nadj : Nat) :
    back (getAugOffset d nfwd nadj).rx = (nfwd + 1) * d.nrx + nadj * d.nx :=
  back_offset _ _ _ _

lemma back_p (d : Dims) (nfwd nadj : Nat) :
    back (getAugOffset d nfwd nadj).p = (nfwd + 1) * d.np + nadj * d.nrq :=
  back_offset _ _ _ _

/-- C2: for every `nfwd, nadj` on an initialized integrator, the forward
augmented problem's state input and ODE output widths equal the last
element of the `x` offset sequence, and the backward augmented problem,
when built, has backward-state input and backward-ODE output widths equal
to the last element of the `rx` offset sequence; in the scenario
`nx=2, nz=0, np=1`, no backward problem, `nfwd=1, nadj=0`, the forward
augmented problem has state width 4, parameter width 2, and the `x` offset
sequence is `[0,2,4]`. -/
theorem getAugmented_port_widths (d : Dims) (hasG : Bool) (nfwd nadj : Nat)
    (hv : DimsValid d hasG) :
    ((getAugmented d hasG nfwd nadj).fwd.inX =
        back (getAugOffset d nfwd nadj).x ∧
      (getAugmented d hasG nfwd nadj).fwd.outOde =
        back (getAugOffset d nfwd nadj).x) ∧
    (∀ b, (getAugmented d hasG nfwd nadj).bwd = some b →
      b.inRX = back (getAugOffset d nfwd nadj).rx ∧
      b.outOde = back (getAugOffset d nfwd nadj).rx) ∧
    ((getAugmented ⟨2, 0, 0, 1, 0, 0, 0, 0⟩ false 1 0).fwd.inX = 4 ∧
      (getAugmented ⟨2, 0, 0, 1, 0, 0, 0, 0⟩ false 1 0).fwd.inP = 2 ∧
      (getAugOffset ⟨2, 0, 0, 1, 0, 0, 0, 0⟩ 1 0).x = [0, 2, 4]) := by
  have hzx : hasG = false → d.nrx = 0 := fun h => (hv h).1
  refine ⟨?_, ?_, by decide⟩
  · rw [back_x]
    by_cases hr : hasG = false ∧ nfwd = 0
    · obtain ⟨hG, hf⟩ := hr
      have h1 : d.nrx = 0 := hzx hG
      subst hG; subst hf
      simp [getAugmented, fProbW, h1]
    · constructor
      · simp [getAugmented, if_neg hr, back_x]
      · simp only [getAugmented, if_neg hr]
        exact heightSum_fwdGuarded hasG (nfwd + 1) d.nx nadj d.nrx false true hzx
  · intro b hb
    simp only [getAugmented] at hb
    split at hb
    · exact absurd hb (by simp)
    · rw [Option.some_inj] at hb
      subst hb
      refine ⟨rfl, ?_⟩
      rw [back_rx]
      exact heightSum_bwdGuarded hasG (nfwd + 1) d.nrx nadj d.nx false true hzx

theorem getAugmented_port_widths_witness :
    DimsValid ⟨1, 1, 1, 1, 1, 1, 1, 1⟩ true ∧
    (((getAugmented ⟨1, 1, 1, 1, 1, 1, 1, 1⟩ true 1 1).fwd.inX =
        back (getAugOffset ⟨1, 1, 1, 1, 1, 1, 1, 1⟩ 1 1).x ∧
      (getAugmented ⟨1, 1, 1, 1, 1, 1, 1, 1⟩ true 1 1).fwd.outOde =
        back (getAugOffset ⟨1, 1, 1, 1, 1, 1, 1, 1⟩ 1 1).x) ∧
    (∀ b, (getAugmented ⟨1, 1, 1, 1, 1, 1, 1, 1⟩ true 1 1).bwd = some b →
      b.inRX = back (getAugOffset ⟨1, 1, 1, 1, 1, 1, 1, 1⟩ 1 1).rx ∧
      b.outOde = back (getAugOffset ⟨1, 1, 1, 1, 1, 1, 1, 1⟩ 1 1).rx) ∧
    ((getAugmented ⟨2, 0, 0, 1, 0, 0, 0, 0⟩ false 1 0).fwd.inX = 4 ∧
      (getAugmented ⟨2, 0, 0, 1, 0, 0, 0, 0⟩ false 1 0).fwd.inP = 2 ∧
      (getAugOffset ⟨2, 0, 0, 1, 0, 0, 0, 0⟩ 1 0).x = [0, 2, 4])) :=
  ⟨by decide, getAugmented_port_widths ⟨1, 1, 1, 1, 1, 1, 1, 1⟩ true 1 1 (by decide)⟩

/-- C5: calling the augmented-problem builder with `nfwd=0` and `nadj=0` on
an integrator without a backward DAE returns the original forward problem
object itself (identity optimization, `ret.first = f_`) and a null backward
augmented problem. -/
theorem getAugmented_identity_optimization (d : Dims) :
    getAugmented d false 0 0 = ⟨true, fProbW d, none⟩ := by
  simp [getAugmented, augLists]

/-- C6: whenever the backward problem is absent and `nfwd = 0`,
`getAugmented` returns the original forward problem object itself for every
`nadj` — including `nadj > 0` — and in that case every adjoint-derivative
output block is placed in the backward result lists (hence in the newly
built backward augmented problem, which exists as soon as `nadj > 0` and
`nx > 0`), never in the forward ones. -/
theorem getAugmented_reuse_any_nadj (d : Dims) (nadj : Nat) :
    (getAugmented d false 0 nadj).fwdReused = true ∧
    (getAugmented d false 0 nadj).fwd = fProbW d ∧
    (∀ b ∈ (augLists d false 0 nadj).f_ode ++ (augLists d false 0 nadj).f_alg ++
      (augLists d false 0 nadj).f_quad, b.adj = false) ∧
    (∀ b ∈ (augLists d false 0 nadj).g_ode ++ (augLists d false 0 nadj).g_alg ++
      (augLists d false 0 nadj).g_quad, b.adj = true) ∧
    (0 < nadj → 0 < d.nx → (getAugmented d false 0 nadj).bwd.isSome = true) := by
  refine ⟨rfl, by simp [getAugmented], ?_, ?_, ?_⟩
  · intro b hb
    simp [augLists] at hb
    rcases hb with h | h | h <;> simp [h.2]
  · intro b hb
    simp [augLists] at hb
    rcases hb with h | h | h <;> simp [h.2]
  · intro h1 h2
    obtain ⟨m, rfl⟩ : ∃ m, nadj = m + 1 := ⟨nadj - 1, by omega⟩
    simp [getAugmented, augLists, h2, List.replicate_succ]

theorem getAugmented_reuse_any_nadj_witness :
    (getAugmented ⟨1, 0, 0, 0, 0, 0, 0, 0⟩ false 0 1).fwdReused = true ∧
    (getAugmented ⟨1, 0, 0, 0, 0, 0, 0, 0⟩ false 0 1).bwd.isSome = true :=
  ⟨(getAugmented_reuse_any_nadj ⟨1, 0, 0, 0, 0, 0, 0, 0⟩ 1).1,
    (getAugmented_reuse_any_nadj ⟨1, 0, 0, 0, 0, 0, 0, 0⟩ 1).2.2.2.2
      (by decide) (by decide)⟩


/-! ## Derivative function assembler (`IntegratorInternal::getDerivative`,
integrator_internal.cpp lines 693-878): output wiring -/

/-- The six integrator input ports, in scheme order
`INTEGRATOR_X0, INTEGRATOR_P, INTEGRATOR_Z0, INTEGRATOR_RX0,
INTEGRATOR_RP, INTEGRATOR_RZ0`. -/
inductive InPort where
  | x0
  | p
  | z0
  | rx0
  | rp
  | rz0
deriving Repr, DecidableEq

/-- The six integrator output ports, in scheme order
`INTEGRATOR_XF, INTEGRATOR_QF, INTEGRATOR_ZF, INTEGRATOR_RXF,
INTEGRATOR_RQF, INTEGRATOR_RZF`. -/
inductive OutPort where
  | xf
  | qf
  | zf
  | rxf
  | rqf
  | rzf
deriving Repr, DecidableEq

/-- The shape of one output slot of the function built by `getDerivative`:
slots of the nondifferentiated/forward groups are shaped like integrator
outputs, slots of the adjoint groups are shaped like integrator inputs. -/
inductive SlotTag where
  | inS (ip : InPort)
  | outS (op : OutPort)
deriving Repr, DecidableEq

/-- One entry of `ret_out`: its slot shape and, when the corresponding
dimension is nonzero, which per-direction block (augmented output vector and
chunk index of the `vertsplit`) it receives; `none` models the null `MX()`
left by the initial `fill`. -/
structure OutEntry where
  tag : SlotTag
  content : Option (OutPort × Nat)
deriving Repr, DecidableEq

/-- The six split-iterator positions
`xf_aug_it, qf_aug_it, zf_aug_it, rxf_aug_it, rqf_aug_it, rzf_aug_it`. -/
structure ChunkCtr where
  cxf : Nat
  cqf : Nat
  czf : Nat
  crxf : Nat
  crqf : Nat
  crzf : Nat
deriving Repr, DecidableEq

/-- One iteration of the nondifferentiated/forward collection loop
(lines 852-860): `dd[INTEGRATOR_XF] = *xf_aug_it++` when `nx>0`, and so on;
slots of zero-size dimensions stay null. -/
def fwdOutGroup (d : Dims) (c : ChunkCtr) : List OutEntry × ChunkCtr :=
  ([⟨.outS .xf, if 0 < d.nx then some (.xf, c.cxf) else none⟩,
    ⟨.outS .qf, if 0 < d.nq then some (.qf, c.cqf) else none⟩,
    ⟨.outS .zf, if 0 < d.nz then some (.zf, c.czf) else none⟩,
    ⟨.outS .rxf, if 0 < d.nrx then some (.rxf, c.crxf) else none⟩,
    ⟨.outS .rqf, if 0 < d.nrq then some (.rqf, c.crqf) else none⟩,
    ⟨.outS .rzf, if 0 < d.nrz then some (.rzf, c.crzf) else none⟩],
   ⟨c.cxf + (if 0 < d.nx then 1 else 0),
    c.cqf + (if 0 < d.nq then 1 else 0),
    c.czf + (if 0 < d.nz then 1 else 0),
    c.crxf + (if 0 < d.nrx then 1 else 0),
    c.crqf + (if 0 < d.nrq then 1 else 0),
    c.crzf + (if 0 < d.nrz then 1 else 0)⟩)

/-- One iteration of the adjoint collection loop (lines 865-872): per
adjoint direction the entries are *input*-shaped and consume the remaining
chunks of the augmented outputs under the mirrored swap rule:
`dd[INTEGRATOR_X0] = *rxf_aug_it++` when `nx>0`,
`dd[INTEGRATOR_P] = *rqf_aug_it++` when `np>0`,
`dd[INTEGRATOR_Z0] = *rzf_aug_it++` when `nz>0`,
`dd[INTEGRATOR_RX0] = *xf_aug_it++` when `nrx>0`,
`dd[INTEGRATOR_RP] = *qf_aug_it++` when `nrp>0`,
`dd[INTEGRATOR_RZ0] = *zf_aug_it++` when `nrz>0`. -/
def adjOutGroup (d : Dims) (c : ChunkCtr) : List OutEntry × ChunkCtr :=
  ([⟨.inS .x0, if 0 < d.nx then some (.rxf, c.crxf) else none⟩,
    ⟨.inS .p, if 0 < d.np then some (.rqf, c.crqf) else none⟩,
    ⟨.inS .z0, if 0 < d.nz then some (.rzf, c.crzf) else none⟩,
    ⟨.inS .rx0, if 0 < d.nrx then some (.xf, c.cxf) else none⟩,
    ⟨.inS .rp, if 0 < d.nrp then some (.qf, c.cqf) else none⟩,
    ⟨.inS .rz0, if 0 < d.nrz then some (.zf, c.czf) else none⟩],
   ⟨c.cxf + (if 0 < d.nrx then 1 else 0),
    c.cqf + (if 0 < d.nrp then 1 else 0),
    c.czf + (if 0 < d.nrz then 1 else 0),
    c.crxf + (if 0 < d.nx then 1 else 0),
    c.crqf + (if 0 < d.np then 1 else 0),
    c.crzf + (if 0 < d.nz then 1 else 0)⟩)

/-- Iterate a collection loop `n` times, threading the iterator state. -/
def iterGroups {γ : Type} (g : ChunkCtr → List γ × ChunkCtr) :
    Nat → ChunkCtr → List γ × ChunkCtr
  | 0, c => ([], c)
  | n + 1, c =>
      let ec := g c
      let rest := iterGroups g n ec.2
      (ec.1 ++ rest.1, rest.2)

/-- The `ret_out` list built by `getDerivative(nfwd,nadj)`: `nfwd+1`
output-shaped groups followed by `nadj` input-shaped groups, consuming the
`vertsplit` chunks of the augmented integrator's six outputs in order. -/
def derivOutTags (d : Dims) (nfwd nadj : Nat) : List OutEntry :=
  let fwdPart := iterGroups (fwdOutGroup d) (nfwd + 1) ⟨0, 0, 0, 0, 0, 0⟩
  fwdPart.1 ++ (iterGroups (adjOutGroup d) nadj fwdPart.2).1

/-- How many chunks of an augmented output vector belong to the
nondifferentiated/forward directions: the first `nfwd+1` blocks when the
corresponding dimension is nonzero (cf. the offset sequences of
`getAugOffset`). -/
def fwdChunkCount (d : Dims) (nfwd : Nat) : OutPort → Nat
  | .xf => if 0 < d.nx then nfwd + 1 else 0
  | .qf => if 0 < d.nq then nfwd + 1 else 0
  | .zf => if 0 < d.nz then nfwd + 1 else 0
  | .rxf => if 0 < d.nrx then nfwd + 1 else 0
  | .rqf => if 0 < d.nrq then nfwd + 1 else 0
  | .rzf => if 0 < d.nrz then nfwd + 1 else 0

/-- A chunk reference denotes an adjoint-direction block (an adjoint
sensitivity result) when its index lies past the forward blocks. -/
def isAdjChunk (d : Dims) (nfwd : Nat) (c : OutPort × Nat) : Prop :=
  fwdChunkCount d nfwd c.1 ≤ c.2

lemma derivOutTags_zero_one (d : Dims) :
    derivOutTags d 0 1 =
      (fwdOutGroup d ⟨0, 0, 0, 0, 0, 0⟩).1 ++
        (adjOutGroup d (fwdOutGroup d ⟨0, 0, 0, 0, 0, 0⟩).2).1 := by
  simp [derivOutTags, iterGroups]

/-- C3: for `nadj=1` and `nfwd=0`, the function returned by `getDerivative`
places the adjoint sensitivity results on output slots shaped like the
primal inputs — x0-shaped, p-shaped, z0-shaped and, when a backward problem
exists, rx0-, rp-, rz0-shaped — and never on output-shaped (xf-shaped)
slots: a collected chunk is an adjoint-direction block exactly when its
slot is input-shaped, and each input-shaped slot with nonzero dimension
does receive its adjoint block. -/
theorem getDerivative_adjoint_slots (d : Dims) :
    (∀ e ∈ derivOutTags d 0 1, ∀ c, e.content = some c →
      (isAdjChunk d 0 c ↔ ∃ ip, e.tag = .inS ip)) ∧
    (0 < d.nx →
      (⟨.inS .x0, some (.rxf, fwdChunkCount d 0 .rxf)⟩ : OutEntry) ∈
        derivOutTags d 0 1 ∧ isAdjChunk d 0 (.rxf, fwdChunkCount d 0 .rxf)) ∧
    (0 < d.np →
      (⟨.inS .p, some (.rqf, fwdChunkCount d 0 .rqf)⟩ : OutEntry) ∈
        derivOutTags d 0 1 ∧ isAdjChunk d 0 (.rqf, fwdChunkCount d 0 .rqf)) ∧
    (0 < d.nz →
      (⟨.inS .z0, some (.rzf, fwdChunkCount d 0 .rzf)⟩ : OutEntry) ∈
        derivOutTags d 0 1 ∧ isAdjChunk d 0 (.rzf, fwdChunkCount d 0 .rzf)) ∧
    (0 < d.nrx →
      (⟨.inS .rx0, some (.xf, fwdChunkCount d 0 .xf)⟩ : OutEntry) ∈
        derivOutTags d 0 1 ∧ isAdjChunk d 0 (.xf, fwdChunkCount d 0 .xf)) ∧
    (0 < d.nrp →
      (⟨.inS .rp, some (.qf, fwdChunkCount d 0 .qf)⟩ : OutEntry) ∈
        derivOutTags d 0 1 ∧ isAdjChunk d 0 (.qf, fwdChunkCount d 0 .qf)) ∧
    (0 < d.nrz →
      (⟨.inS .rz0, some (.zf, fwdChunkCount d 0 .zf)⟩ : OutEntry) ∈
        derivOutTags d 0 1 ∧ isAdjChunk d 0 (.zf, fwdChunkCount d 0 .zf)) := by
  refine ⟨?_, ?_, ?_, ?_, ?_, ?_, ?_⟩
  · intro e he c hc
    rw [derivOutTags_zero_one] at he
    simp [fwdOutGroup, adjOutGroup] at he
    rcases he with rfl | rfl | rfl | rfl | rfl | rfl | rfl | rfl | rfl | rfl | rfl | rfl <;>
      · split at hc
        · rename_i hpos
          rw [Option.some_inj] at hc
          subst hc
          simp [isAdjChunk, fwdChunkCount, hpos]
        · exact absurd hc (by simp)
  · intro h
    rw [derivOutTags_zero_one]
    constructor
    · simp [fwdOutGroup, adjOutGroup, fwdChunkCount, h]
    · simp [isAdjChunk]
  · intro h
    rw [derivOutTags_zero_one]
    constructor
    · simp [fwdOutGroup, adjOutGroup, fwdChunkCount, h]
    · simp [isAdjChunk]
  · intro h
    rw [derivOutTags_zero_one]
    constructor
    · simp [fwdOutGroup, adjOutGroup, fwdChunkCount, h]
    · simp [isAdjChunk]
  · intro h
    rw [derivOutTags_zero_one]
    constructor
    · simp [fwdOutGroup, adjOutGroup, fwdChunkCount, h]
    · simp [isAdjChunk]
  · intro h
    rw [derivOutTags_zero_one]
    constructor
    · simp [fwdOutGroup, adjOutGroup, fwdChunkCount, h]
    · simp [isAdjChunk]
  · intro h
    rw [derivOutTags_zero_one]
    constructor
    · simp [fwdOutGroup, adjOutGroup, fwdChunkCount, h]
    · simp [isAdjChunk]

theorem getDerivative_adjoint_slots_witness :
    (⟨.inS .x0, some (.rxf, fwdChunkCount ⟨1, 1, 1, 1, 1, 1, 1, 1⟩ 0 .rxf)⟩ :
      OutEntry) ∈ derivOutTags ⟨1, 1, 1, 1, 1, 1, 1, 1⟩ 0 1 ∧
    isAdjChunk ⟨1, 1, 1, 1, 1, 1, 1, 1⟩ 0
      (.rxf, fwdChunkCount ⟨1, 1, 1, 1, 1, 1, 1, 1⟩ 0 .rxf) :=
  (getDerivative_adjoint_slots ⟨1, 1, 1, 1, 1, 1, 1, 1⟩).2.1 (by decide)

/-! ## Derivative function assembler: value-level round trip -/

/-- Concrete values on the six integrator input ports. -/
structure IntIns where
  x0 : List Int
  p : List Int
  z0 : List Int
  rx0 : List Int
  rp : List Int
  rz0 : List Int
deriving Repr, DecidableEq

/-- Concrete values on the six integrator output ports. -/
structure IntOuts where
  xf : List Int
  qf : List Int
  zf : List Int
  rxf : List Int
  rqf : List Int
  rzf : List Int
deriving Repr, DecidableEq

/-- The inputs of the function built by `getDerivative(nfwd,nadj)`: the
primal inputs, `nfwd` forward-seed tuples (input-shaped) and `nadj`
adjoint-seed tuples (output-shaped). -/
structure DerivIns where
  prim : IntIns
  fwdSeeds : List IntIns
  adjSeeds : List IntOuts
deriving Repr, DecidableEq

/-- The `append` assembly of the six augmented input vectors
(integrator_internal.cpp lines 729-828): per nondifferentiated/forward
direction the input-shaped symbols go onto `x0_aug, p_aug, z0_aug,
rx0_aug, rp_aug, rz0_aug`; per adjoint direction the output-shaped seeds
are swapped on: `xf` seeds onto `rx0_aug`, `qf` onto `rp_aug`, `zf` onto
`rz0_aug`, `rxf` onto `x0_aug`, `rqf` onto `p_aug`, `rzf` onto `z0_aug`. -/
def augIns (ins : DerivIns) : IntIns where
  x0 := ins.prim.x0 ++ (ins.fwdSeeds.map (fun s => s.x0)).flatten ++
    (ins.adjSeeds.map (fun s => s.rxf)).flatten
  p := ins.prim.p ++ (ins.fwdSeeds.map (fun s => s.p)).flatten ++
    (ins.adjSeeds.map (fun s => s.rqf)).flatten
  z0 := ins.prim.z0 ++ (ins.fwdSeeds.map (fun s => s.z0)).flatten ++
    (ins.adjSeeds.map (fun s => s.rzf)).flatten
  rx0 := ins.prim.rx0 ++ (ins.fwdSeeds.map (fun s => s.rx0)).flatten ++
    (ins.adjSeeds.map (fun s => s.xf)).flatten
  rp := ins.prim.rp ++ (ins.fwdSeeds.map (fun s => s.rp)).flatten ++
    (ins.adjSeeds.map (fun s => s.qf)).flatten
  rz0 := ins.prim.rz0 ++ (ins.fwdSeeds.map (fun s => s.rz0)).flatten ++
    (ins.adjSeeds.map (fun s => s.zf)).flatten

/-- `vertsplit(v, offsets)`: the consecutive row ranges of `v` delimited by
the cumulative offsets. -/
def splitByOffsets {α : Type} : List Nat → List α → List (List α)
  | [], _ => []
  | [_], _ => []
  | a :: b :: rest, v => ((v.drop a).take (b - a)) :: splitByOffsets (b :: rest) v

/-- The per-direction chunks of the augmented integrator's six outputs
(the `vertsplit` calls at lines 832-837). -/
def augChunks (d : Dims) (nfwd nadj : Nat) (o : IntOuts) :
    OutPort → List (List Int)
  | .xf => splitByOffsets (getAugOffset d nfwd nadj).x o.xf
  | .qf => splitByOffsets (getAugOffset d nfwd nadj).q o.qf
  | .zf => splitByOffsets (getAugOffset d nfwd nadj).z o.zf
  | .rxf => splitByOffsets (getAugOffset d nfwd nadj).rx o.rxf
  | .rqf => splitByOffsets (getAugOffset d nfwd nadj).rq o.rqf
  | .rzf => splitByOffsets (getAugOffset d nfwd nadj).rz o.rzf

/-- Value-level version of `fwdOutGroup`: one output-shaped group of
collected chunk values. -/
def fwdOutGroupVals (d : Dims) (ch : OutPort → List (List Int))
    (c : ChunkCtr) : List (Option (List Int)) × ChunkCtr :=
  ([if 0 < d.nx then (ch .xf)[c.cxf]? else none,
    if 0 < d.nq then (ch .qf)[c.cqf]? else none,
    if 0 < d.nz then (ch .zf)[c.czf]? else none,
    if 0 < d.nrx then (ch .rxf)[c.crxf]? else none,
    if 0 < d.nrq then (ch .rqf)[c.crqf]? else none,
    if 0 < d.nrz then (ch .rzf)[c.crzf]? else none],
   ⟨c.cxf + (if 0 < d.nx then 1 else 0),
    c.cqf + (if 0 < d.nq then 1 else 0),
    c.czf + (if 0 < d.nz then 1 else 0),
    c.crxf + (if 0 < d.nrx then 1 else 0),
    c.crqf + (if 0 < d.nrq then 1 else 0),
    c.crzf + (if 0 < d.nrz then 1 else 0)⟩)

/-- Value-level version of `adjOutGroup`: one input-shaped group of
collected chunk values under the mirrored swap rule. -/
def adjOutGroupVals (d : Dims) (ch : OutPort → List (List Int))
    (c : ChunkCtr) : List (Option (List Int)) × ChunkCtr :=
  ([if 0 < d.nx then (ch .rxf)[c.crxf]? else none,
    if 0 < d.np then (ch .rqf)[c.crqf]? else none,
    if 0 < d.nz then (ch .rzf)[c.crzf]? else none,
    if 0 < d.nrx then (ch .xf)[c.cxf]? else none,
    if 0 < d.nrp then (ch .qf)[c.cqf]? else none,
    if 0 < d.nrz then (ch .zf)[c.czf]? else none],
   ⟨c.cxf + (if 0 < d.nrx then 1 else 0),
    c.cqf + (if 0 < d.nrp then 1 else 0),
    c.czf + (if 0 < d.nrz then 1 else 0),
    c.crxf + (if 0 < d.nx then 1 else 0),
    c.crqf + (if 0 < d.np then 1 else 0),
    c.crzf + (if 0 < d.nz then 1 else 0)⟩)

/-- The values delivered on the output slots of the function built by
`getDerivative(nfwd,nadj)` when the augmented integrator behaves as the
function `Iaug`: assemble the augmented inputs, call `Iaug` once, split its
six outputs by the offsets and collect the chunks group by group. -/
def derivOutVals (d : Dims) (nfwd nadj : Nat) (Iaug : IntIns → IntOuts)
    (ins : DerivIns) : List (Option (List Int)) :=
  let ch := augChunks d nfwd nadj (Iaug (augIns ins))
  let fwdPart := iterGroups (fwdOutGroupVals d ch) (nfwd + 1) ⟨0, 0, 0, 0, 0, 0⟩
  fwdPart.1 ++ (iterGroups (adjOutGroupVals d ch) nadj fwdPart.2).1

/-- Modelled from the spec: the augmented integrator that `getDerivative`
builds through the external `create` factory and the numeric collaborator
(neither is part of src/) realizes an "augmented system" whose "state
vector stacks the primal problem and all requested sensitivity directions"
(spec §2, §4.4 and glossary), so the first (nondifferentiated) block of
each of its six outputs is the nondifferentiated integrator's output on the
first blocks of its inputs.  `primalTake` extracts those first blocks. -/
def primalTake (d : Dims) (o : IntOuts) : IntOuts where
  xf := o.xf.take d.nx
  qf := o.qf.take d.nq
  zf := o.zf.take d.nz
  rxf := o.rxf.take d.nrx
  rqf := o.rqf.take d.nrq
  rzf := o.rzf.take d.nrz

/-- All entries of a seed vector are zero. -/
def allZeroL (l : List Int) : Prop :=
  ∀ v ∈ l, v = 0

instance (l : List Int) : Decidable (allZeroL l) := by
  unfold allZeroL; infer_instance

/-- An input-shaped seed tuple is identically zero. -/
def zeroSeedsIn (s : IntIns) : Prop :=
  allZeroL s.x0 ∧ allZeroL s.p ∧ allZeroL s.z0 ∧ allZeroL s.rx0 ∧
    allZeroL s.rp ∧ allZeroL s.rz0

instance (s : IntIns) : Decidable (zeroSeedsIn s) := by
  unfold zeroSeedsIn; infer_instance

/-- An output-shaped seed tuple is identically zero. -/
def zeroSeedsOut (s : IntOuts) : Prop :=
  allZeroL s.xf ∧ allZeroL s.qf ∧ allZeroL s.zf ∧ allZeroL s.rxf ∧
    allZeroL s.rqf ∧ allZeroL s.rzf

instance (s : IntOuts) : Decidable (zeroSeedsOut s) := by
  unfold zeroSeedsOut; infer_instance

lemma scanl_head_cons (b : Nat) (l : List Nat) :
    ∃ t, List.scanl (· + ·) b l = b :: t := by
  cases l with
  | nil => exact ⟨[], by simp [List.scanl_nil]⟩
  | cons x xs =>
      exact ⟨List.scanl (· + ·) (b + x) xs,
        by rw [List.scanl_cons, List.singleton_append]⟩

lemma splitByOffsets_head {α : Type} (s1 n : Nat) (hs : 0 < s1)
    (l2 : List Nat) (v : List α) :
    (splitByOffsets (cumsum (pushBlocks (n + 1) s1 ++ l2)) v)[0]? =
      some (v.take s1) := by
  unfold pushBlocks
  rw [if_pos hs, List.replicate_succ, List.cons_append]
  unfold cumsum
  rw [List.scanl_cons]
  obtain ⟨t, ht⟩ := scanl_head_cons (0 + s1) (List.replicate n s1 ++ l2)
  rw [ht]
  simp [splitByOffsets]

/-- C4: for every `nfwd, nadj ≥ 0`, evaluating the function returned by
`getDerivative(nfwd,nadj)` with all forward-seed and adjoint-seed inputs
zero yields, on its primal output slots (the first group of six), exactly
the outputs of the nondifferentiated integrator `I` evaluated on the same
primal inputs — provided the augmented integrator `Iaug` satisfies the
primal-block property of the augmented system (`primalTake`, modelled from
the spec since the integrator factory is outside src/). -/
theorem getDerivative_zero_seed_roundtrip (d : Dims) (nfwd nadj : Nat)
    (I Iaug : IntIns → IntOuts) (ins : DerivIns)
    (_hfz : ∀ s ∈ ins.fwdSeeds, zeroSeedsIn s)
    (_haz : ∀ s ∈ ins.adjSeeds, zeroSeedsOut s)
    (hprim : primalTake d (Iaug (augIns ins)) = I ins.prim) :
    (derivOutVals d nfwd nadj Iaug ins).take 6 =
      [if 0 < d.nx then some (I ins.prim).xf else none,
       if 0 < d.nq then some (I ins.prim).qf else none,
       if 0 < d.nz then some (I ins.prim).zf else none,
       if 0 < d.nrx then some (I ins.prim).rxf else none,
       if 0 < d.nrq then some (I ins.prim).rqf else none,
       if 0 < d.nrz then some (I ins.prim).rzf else none] := by
  have hxf : (Iaug (augIns ins)).xf.take d.nx = (I ins.prim).xf := by
    rw [← hprim]; rfl
  have hqf : (Iaug (augIns ins)).qf.take d.nq = (I ins.prim).qf := by
    rw [← hprim]; rfl
  have hzf : (Iaug (augIns ins)).zf.take d.nz = (I ins.prim).zf := by
    rw [← hprim]; rfl
  have hrxf : (Iaug (augIns ins)).rxf.take d.nrx = (I ins.prim).rxf := by
    rw [← hprim]; rfl
  have hrqf : (Iaug (augIns ins)).rqf.take d.nrq = (I ins.prim).rqf := by
    rw [← hprim]; rfl
  have hrzf : (Iaug (augIns ins)).rzf.take d.nrz = (I ins.prim).rzf := by
    rw [← hprim]; rfl
  by_cases h1 : 0 < d.nx <;> by_cases h2 : 0 < d.nq <;>
    by_cases h3 : 0 < d.nz <;> by_cases h4 : 0 < d.nrx <;>
    by_cases h5 : 0 < d.nrq <;> by_cases h6 : 0 < d.nrz <;>
    simp [derivOutVals, iterGroups, fwdOutGroupVals, augChunks, getAugOffset,
      xBlocks, qBlocks, zBlocks, rxBlocks, rqBlocks, rzBlocks,
      splitByOffsets_head, h1, h2, h3, h4, h5, h6, hxf, hqf, hzf, hrxf,
      hrqf, hrzf]

theorem getDerivative_zero_seed_roundtrip_witness :
    (∀ s ∈ ([] : List IntIns), zeroSeedsIn s) ∧
    (derivOutVals ⟨1, 0, 0, 0, 0, 0, 0, 0⟩ 0 0
        (fun s => ⟨s.x0.take 1, [], [], [], [], []⟩)
        ⟨⟨[7], [], [], [], [], []⟩, [], []⟩).take 6 =
      [some [7], none, none, none, none, none] := by
  refine ⟨by simp, ?_⟩
  have h := getDerivative_zero_seed_roundtrip ⟨1, 0, 0, 0, 0, 0, 0, 0⟩ 0 0
    (fun s => ⟨s.x0.take 1, [], [], [], [], []⟩)
    (fun s => ⟨s.x0.take 1, [], [], [], [], []⟩)
    ⟨⟨[7], [], [], [], [], []⟩, [], []⟩
    (by simp) (by simp) (by decide)
  simpa using h

end Casadi
